import Mathlib

/-!
Verification of the emirates-auction-scraper reconciliation engine and
dashboard presentation logic against its specification.

The reconciliation engine (AuctionReconciler, BuyNowReconciler,
ScheduleAdvisor, Archiver) is shipped as a Python scraper that is not part
of the checked-in sources here; those components are modelled directly from
the specification text (each such definition carries a doc comment starting
`Modelled from the spec:`).  The dashboard presentation logic
(dashboard/src/app/page.tsx and its variants) is present in the sources and
is embedded from the code.
-/

namespace EmiratesAuction

/-- Modelled from the spec: item lifecycle status for auctions,
`Active | Completed` (§3, Data Model; the scraper source is not in the
checked-in tree). -/
inductive ItemStatus
  | active
  | completed
deriving DecidableEq

/-- Modelled from the spec: one `(price, timestamp)` entry of an item's
append-only `price_history` (§3). -/
structure PricePoint where
  price : Nat
  ts : Nat
deriving DecidableEq

/-- Modelled from the spec: a tracked auction item (plate) with
`current_price`, `bid_count`, `status`, `first_seen`, `completed_at`, and
`price_history` (§3). -/
structure Item where
  current_price : Nat
  bid_count : Nat
  status : ItemStatus
  first_seen : Nat
  completed_at : Option Nat
  price_history : List PricePoint
deriving DecidableEq

/-- Modelled from the spec: one entry of a ListingSnapshot — a currently
listed item with its key, present price and bid count (§2, §4.1). -/
structure SnapItem where
  key : String
  price : Nat
  bids : Nat
deriving DecidableEq

/-- Modelled from the spec: collection-level status, `Active | Completed`
(auctions only, §3). -/
inductive CollStatus
  | active
  | completed
deriving DecidableEq

/-- Modelled from the spec: the per-collection auction TrackingStore — a
collection status plus an insertion-ordered mapping of item key to item
(§3; keys are unique within one collection). -/
structure Store where
  status : CollStatus
  items : List (String × Item)
deriving DecidableEq

/-- Modelled from the spec: look an item key up in a snapshot (first entry
with that key, if any). -/
def snapLookup (snapshot : List SnapItem) (k : String) : Option SnapItem :=
  match snapshot with
  | [] => none
  | s :: rest => if s.key = k then some s else snapLookup rest k

/-- Modelled from the spec: whether a store's item list already holds the
given key. -/
def hasKeyIn (items : List (String × Item)) (k : String) : Bool :=
  match items with
  | [] => false
  | p :: rest => p.1 == k || hasKeyIn rest k

/-- Modelled from the spec: the per-item transition of `reconcile` (§4.1).
A `Completed` item is never touched again (never re-activated even if it
reappears); an `Active` item present in the snapshot gets `(price, now)`
appended to `price_history` and `current_price`/`bid_count` updated when
the price differs, or `bid_count` only when unchanged; an `Active` item
absent from the snapshot transitions to `Completed` with
`completed_at = now`, preserving the last known price. -/
def stepItem (snapshot : List SnapItem) (now : Nat) (k : String) (it : Item) : Item :=
  match it.status with
  | .completed => it
  | .active =>
    match snapLookup snapshot k with
    | some s =>
      if s.price = it.current_price then
        { it with bid_count := s.bids }
      else
        { it with current_price := s.price, bid_count := s.bids,
                  price_history := it.price_history ++ [⟨s.price, now⟩] }
    | none => { it with status := .completed, completed_at := some now }

/-- Modelled from the spec: a snapshot item not yet in the store is
inserted as a new `Active` item with `first_seen = now` and
`price_history = [(price, now)]` (§4.1). -/
def newItem (now : Nat) (s : SnapItem) : Item :=
  { current_price := s.price, bid_count := s.bids, status := .active,
    first_seen := now, completed_at := none,
    price_history := [⟨s.price, now⟩] }

/-- Modelled from the spec: the snapshot items whose keys are not yet in
the store, inserted as new `Active` items in snapshot order (§4.1). -/
def freshItems (store : Store) (snapshot : List SnapItem) (now : Nat) :
    List (String × Item) :=
  (snapshot.filter (fun s => !(hasKeyIn store.items s.key))).map
    (fun s => (s.key, newItem now s))

/-- Modelled from the spec: `reconcile(store, snapshot, now) ->
UpdatedStore, signals` of the AuctionReconciler (§4.1).  Every stored item
takes its per-item transition, snapshot items with unseen keys are inserted
in snapshot order, and when the snapshot is empty while the collection
previously had at least one item the collection transitions to `Completed`;
the archive signal fires exactly on that `Active → Completed` transition. -/
def reconcile (store : Store) (snapshot : List SnapItem) (now : Nat) :
    Store × Bool :=
  ({ status :=
       if snapshot.isEmpty && !store.items.isEmpty then CollStatus.completed
       else store.status,
     items := store.items.map (fun p => (p.1, stepItem snapshot now p.1 p.2))
       ++ freshItems store snapshot now },
   (snapshot.isEmpty && !store.items.isEmpty)
     && decide (store.status = CollStatus.active))

/-- The items of the reconciled store, unfolded. -/
theorem reconcile_items (store : Store) (snapshot : List SnapItem) (now : Nat) :
    (reconcile store snapshot now).1.items =
      store.items.map (fun p => (p.1, stepItem snapshot now p.1 p.2))
        ++ freshItems store snapshot now := rfl

/-- The status of the reconciled store, unfolded. -/
theorem reconcile_status (store : Store) (snapshot : List SnapItem) (now : Nat) :
    (reconcile store snapshot now).1.status =
      (if snapshot.isEmpty && !store.items.isEmpty then CollStatus.completed
       else store.status) := rfl

/-- Two stores with equal fields are equal. -/
theorem Store.ext (a b : Store) (h1 : a.status = b.status)
    (h2 : a.items = b.items) : a = b := by
  cases a; cases b; cases h1; cases h2; rfl

/-- A `Completed` item passes through the per-item transition unchanged. -/
theorem stepItem_of_completed (snapshot : List SnapItem) (now : Nat)
    (k : String) (it : Item) (h : it.status = .completed) :
    stepItem snapshot now k it = it := by
  unfold stepItem
  rw [h]

/-- An `Active` item absent from the snapshot transitions to `Completed`
with `completed_at = now`, all other fields untouched. -/
theorem stepItem_of_absent (snapshot : List SnapItem) (now : Nat)
    (k : String) (it : Item) (hact : it.status = .active)
    (habs : snapLookup snapshot k = none) :
    stepItem snapshot now k it =
      { it with status := .completed, completed_at := some now } := by
  unfold stepItem
  rw [hact, habs]

/-- Claim C1: every item present in the store with status `Active` but
absent from the snapshot is, after `reconcile(store, snapshot, now)`,
present in status `Completed` with `completed_at = now`, with
`current_price`, `bid_count`, `first_seen` and `price_history` all
unchanged (so the price stays the last observed one). -/
theorem reconcile_absent_completes (store : Store) (snapshot : List SnapItem)
    (now : Nat) (k : String) (it : Item)
    (hmem : (k, it) ∈ store.items) (hact : it.status = .active)
    (habs : snapLookup snapshot k = none) :
    (k, { it with status := .completed, completed_at := some now }) ∈
      (reconcile store snapshot now).1.items := by
  unfold reconcile
  simp only [List.mem_append]
  left
  refine List.mem_map.mpr ⟨(k, it), hmem, ?_⟩
  simp [stepItem_of_absent snapshot now k it hact habs]

/-- Claim C1 witness (Scenario A): an item seen with price 1000000 at time
1 and absent at time 2 ends `Completed` with `completed_at = 2` and
`current_price = 1000000`. -/
theorem reconcile_absent_completes_witness :
    ("1907", ({ current_price := 1000000, bid_count := 8,
                status := .completed, first_seen := 1,
                completed_at := some 2,
                price_history := [⟨1000000, 1⟩] } : Item)) ∈
      (reconcile ((reconcile ⟨.active, []⟩ [⟨"1907", 1000000, 8⟩] 1).1)
        [] 2).1.items := by
  exact reconcile_absent_completes
    ((reconcile ⟨.active, []⟩ [⟨"1907", 1000000, 8⟩] 1).1) [] 2
    "1907" (newItem 1 ⟨"1907", 1000000, 8⟩) (by decide) (by decide) (by decide)

/-- Claim C5: for an item present in both store and snapshot, a changed
price appends exactly the one entry `(price, now)` to `price_history` and
updates `current_price` and `bid_count`, while an unchanged price updates
`bid_count` only, leaving `price_history` as it was. -/
theorem reconcile_present_updates (store : Store) (snapshot : List SnapItem)
    (now : Nat) (k : String) (it : Item) (s : SnapItem)
    (hmem : (k, it) ∈ store.items) (hact : it.status = .active)
    (hfound : snapLookup snapshot k = some s) :
    (s.price ≠ it.current_price →
      (k, { it with current_price := s.price, bid_count := s.bids,
                    price_history := it.price_history ++ [⟨s.price, now⟩] }) ∈
        (reconcile store snapshot now).1.items) ∧
    (s.price = it.current_price →
      (k, { it with bid_count := s.bids }) ∈
        (reconcile store snapshot now).1.items) := by
  constructor
  · intro hne
    unfold reconcile
    simp only [List.mem_append]
    left
    refine List.mem_map.mpr ⟨(k, it), hmem, ?_⟩
    unfold stepItem
    rw [hact, hfound]
    simp [hne]
  · intro heq
    unfold reconcile
    simp only [List.mem_append]
    left
    refine List.mem_map.mpr ⟨(k, it), hmem, ?_⟩
    unfold stepItem
    rw [hact, hfound]
    simp [heq]

/-- Claim C5 witness (Scenario B): an item seen at price 100 at time 1 and
price 150 at time 2 ends with `price_history = [(100,1),(150,2)]`. -/
theorem reconcile_present_updates_witness :
    ("A1", ({ current_price := 150, bid_count := 3,
              status := .active, first_seen := 1,
              completed_at := none,
              price_history := [⟨100, 1⟩, ⟨150, 2⟩] } : Item)) ∈
      (reconcile ((reconcile ⟨.active, []⟩ [⟨"A1", 100, 2⟩] 1).1)
        [⟨"A1", 150, 3⟩] 2).1.items := by
  have h := (reconcile_present_updates
    ((reconcile ⟨.active, []⟩ [⟨"A1", 100, 2⟩] 1).1) [⟨"A1", 150, 3⟩] 2
    "A1" (newItem 1 ⟨"A1", 100, 2⟩) ⟨"A1", 150, 3⟩
    (by decide) (by decide) (by decide)).1 (by decide)
  exact h

/-- An `Active` item already agreeing with the snapshot (same price, same
bid count) is a fixed point of the per-item transition. -/
theorem stepItem_fixed (snapshot : List SnapItem) (now₂ : Nat) (k : String)
    (u : Item) (s : SnapItem) (hst : u.status = .active)
    (hl : snapLookup snapshot k = some s) (hp : s.price = u.current_price)
    (hb : u.bid_count = s.bids) :
    stepItem snapshot now₂ k u = u := by
  cases u with
  | mk cp bc st fs ca ph =>
    simp only at hst hp hb
    subst hst
    unfold stepItem
    simp only [hl]
    simp [hp, ← hb]

/-- The per-item transition is idempotent for a fixed snapshot: stepping an
already stepped item changes nothing, whatever the two clock values. -/
theorem stepItem_idem (snapshot : List SnapItem) (now now₂ : Nat)
    (k : String) (it : Item) :
    stepItem snapshot now₂ k (stepItem snapshot now k it) =
      stepItem snapshot now k it := by
  cases hst : it.status with
  | completed =>
    rw [stepItem_of_completed snapshot now k it hst,
        stepItem_of_completed snapshot now₂ k it hst]
  | active =>
    cases hl : snapLookup snapshot k with
    | none =>
      rw [stepItem_of_absent snapshot now k it hst hl,
          stepItem_of_completed snapshot now₂ k _ rfl]
    | some s =>
      by_cases hp : s.price = it.current_price
      · have h1 : stepItem snapshot now k it = { it with bid_count := s.bids } := by
          unfold stepItem
          rw [hst, hl]
          simp [hp]
        rw [h1]
        exact stepItem_fixed snapshot now₂ k _ s hst hl hp rfl
      · have h1 : stepItem snapshot now k it =
            { it with current_price := s.price, bid_count := s.bids,
                      price_history := it.price_history ++ [⟨s.price, now⟩] } := by
          unfold stepItem
          rw [hst, hl]
          simp [hp]
        rw [h1]
        exact stepItem_fixed snapshot now₂ k _ s hst hl rfl rfl

/-- In a snapshot with pairwise distinct keys, looking up the key of a
member returns exactly that member. -/
theorem snapLookup_mem_nodup (snapshot : List SnapItem)
    (hnd : (snapshot.map SnapItem.key).Nodup) (s : SnapItem)
    (hs : s ∈ snapshot) : snapLookup snapshot s.key = some s := by
  induction snapshot with
  | nil => cases hs
  | cons a rest ih =>
    simp only [List.map_cons, List.nodup_cons] at hnd
    rcases List.mem_cons.mp hs with rfl | hmem
    · simp [snapLookup]
    · have hne : a.key ≠ s.key := by
        intro h
        exact hnd.1 (h ▸ List.mem_map_of_mem SnapItem.key hmem)
      simp [snapLookup, hne, ih hnd.2 hmem]

/-- A freshly inserted item is a fixed point of the per-item transition for
the snapshot it came from. -/
theorem stepItem_newItem (snapshot : List SnapItem) (now now₂ : Nat)
    (s : SnapItem) (hl : snapLookup snapshot s.key = some s) :
    stepItem snapshot now₂ s.key (newItem now s) = newItem now s := by
  unfold stepItem newItem
  simp [hl]

/-- Key membership distributes over list append. -/
theorem hasKeyIn_append (l₁ l₂ : List (String × Item)) (k : String) :
    hasKeyIn (l₁ ++ l₂) k = (hasKeyIn l₁ k || hasKeyIn l₂ k) := by
  induction l₁ with
  | nil => simp [hasKeyIn]
  | cons p rest ih => simp [hasKeyIn, ih, Bool.or_assoc]

/-- The per-item transition preserves keys, hence key membership. -/
theorem hasKeyIn_map_step (items : List (String × Item))
    (snapshot : List SnapItem) (now : Nat) (k : String) :
    hasKeyIn (items.map (fun p => (p.1, stepItem snapshot now p.1 p.2))) k
      = hasKeyIn items k := by
  induction items with
  | nil => rfl
  | cons p rest ih => simp [hasKeyIn, ih]

/-- A key paired with some item in the list is found by `hasKeyIn`. -/
theorem hasKeyIn_of_mem (items : List (String × Item)) (k : String)
    (it : Item) (h : (k, it) ∈ items) : hasKeyIn items k = true := by
  induction items with
  | nil => cases h
  | cons p rest ih =>
    rcases List.mem_cons.mp h with rfl | hmem
    · simp [hasKeyIn]
    · simp [hasKeyIn, ih hmem]

/-- After one reconciliation every snapshot key is present in the store, so
the second run inserts nothing. -/
theorem freshItems_after_reconcile (store : Store) (snapshot : List SnapItem)
    (now now₂ : Nat) :
    freshItems (reconcile store snapshot now).1 snapshot now₂ = [] := by
  unfold freshItems
  rw [List.map_eq_nil_iff]
  rw [List.filter_eq_nil_iff]
  intro s hs
  rw [reconcile_items, hasKeyIn_append, hasKeyIn_map_step]
  by_cases h : hasKeyIn store.items s.key
  · simp [h]
  · have hmem : (s.key, newItem now s) ∈ freshItems store snapshot now := by
      unfold freshItems
      exact List.mem_map.mpr
        ⟨s, List.mem_filter.mpr ⟨hs, by simp [h]⟩, rfl⟩
    simp [hasKeyIn_of_mem _ _ _ hmem]

/-- Claim C2: idempotence — reconciling a snapshot (with its keys pairwise
distinct, as the source guarantees) and then reconciling the same snapshot
again, at any later clock value, yields a store identical to reconciling it
once: no history growth, no status change, no mutation at all on the second
run. -/
theorem reconcile_idempotent (store : Store) (snapshot : List SnapItem)
    (now now₂ : Nat) (hnd : (snapshot.map SnapItem.key).Nodup) :
    (reconcile (reconcile store snapshot now).1 snapshot now₂).1 =
      (reconcile store snapshot now).1 := by
  apply Store.ext
  · rw [reconcile_status, reconcile_status, reconcile_items]
    cases hE : snapshot.isEmpty with
    | false => simp
    | true =>
      have hsnap : snapshot = [] := List.isEmpty_iff.mp hE
      subst hsnap
      have hfresh : freshItems store [] now = [] := rfl
      rw [hfresh, List.append_nil]
      cases hN : store.items with
      | nil => simp
      | cons p rest => simp
  · rw [reconcile_items, freshItems_after_reconcile, List.append_nil,
        reconcile_items, List.map_append, List.map_map]
    have hleft :
        store.items.map
          ((fun p => (p.1, stepItem snapshot now₂ p.1 p.2)) ∘
           (fun p => (p.1, stepItem snapshot now p.1 p.2))) =
        store.items.map (fun p => (p.1, stepItem snapshot now p.1 p.2)) := by
      apply List.map_congr_left
      intro p _
      simp [Function.comp, stepItem_idem]
    have hright :
        (freshItems store snapshot now).map
          (fun p => (p.1, stepItem snapshot now₂ p.1 p.2)) =
        freshItems store snapshot now := by
      unfold freshItems
      rw [List.map_map]
      apply List.map_congr_left
      intro s hs
      have hsnap : s ∈ snapshot := (List.mem_filter.mp hs).1
      simp [Function.comp,
        stepItem_newItem snapshot now now₂ s
          (snapLookup_mem_nodup snapshot hnd s hsnap)]
    rw [hleft, hright]

/-- Claim C2 witness: a concrete two-item snapshot reconciled twice against
a one-item store leaves the once-reconciled store untouched. -/
theorem reconcile_idempotent_witness :
    (reconcile
      (reconcile
        ⟨.active, [("A1", ⟨100, 2, .active, 0, none, [⟨100, 0⟩]⟩)]⟩
        [⟨"A1", 150, 3⟩, ⟨"B7", 9000, 1⟩] 1).1
      [⟨"A1", 150, 3⟩, ⟨"B7", 9000, 1⟩] 2).1 =
    (reconcile
      ⟨.active, [("A1", ⟨100, 2, .active, 0, none, [⟨100, 0⟩]⟩)]⟩
      [⟨"A1", 150, 3⟩, ⟨"B7", 9000, 1⟩] 1).1 :=
  reconcile_idempotent
    ⟨.active, [("A1", ⟨100, 2, .active, 0, none, [⟨100, 0⟩]⟩)]⟩
    [⟨"A1", 150, 3⟩, ⟨"B7", 9000, 1⟩] 1 2 (by decide)

/-- Claim C6: for an auction collection that is live (`Active`) and
previously had at least one item, reconciling an empty snapshot transitions
the collection to `Completed` and emits the archive signal, and reconciling
the same empty snapshot again emits no further archive signal and performs
zero further mutation (the store is returned unchanged). -/
theorem reconcile_collection_completion (store : Store) (now now₂ : Nat)
    (hne : store.items ≠ []) (hact : store.status = CollStatus.active) :
    (reconcile store [] now).2 = true ∧
    (reconcile store [] now).1.status = CollStatus.completed ∧
    reconcile (reconcile store [] now).1 [] now₂ =
      ((reconcile store [] now).1, false) := by
  have hie : store.items.isEmpty = false := by
    cases h : store.items with
    | nil => exact absurd h hne
    | cons p rest => rfl
  have hst1 : (reconcile store [] now).1.status = CollStatus.completed := by
    rw [reconcile_status]
    simp [hie]
  have hfr : freshItems store ([] : List SnapItem) now = [] := rfl
  have hitems1 : (reconcile store [] now).1.items =
      store.items.map (fun p => (p.1, stepItem [] now p.1 p.2)) := by
    rw [reconcile_items, hfr, List.append_nil]
  have hie1 : (reconcile store [] now).1.items.isEmpty = false := by
    rw [hitems1]
    cases h : store.items with
    | nil => exact absurd h hne
    | cons p rest => rfl
  refine ⟨?_, hst1, ?_⟩
  · show ((List.isEmpty [] && !store.items.isEmpty)
      && decide (store.status = CollStatus.active)) = true
    simp [hie, hact]
  · apply Prod.ext
    · apply Store.ext
      · rw [reconcile_status]
        simp [hie1, hst1]
      · rw [reconcile_items]
        have hfr2 : freshItems (reconcile store [] now).1 ([] : List SnapItem) now₂
            = [] := rfl
        rw [hfr2, List.append_nil, hitems1, List.map_map]
        apply List.map_congr_left
        intro p _
        simp [Function.comp, stepItem_idem]
    · show ((List.isEmpty [] && !(reconcile store [] now).1.items.isEmpty)
        && decide ((reconcile store [] now).1.status = CollStatus.active)) = false
      simp [hst1]

/-- Claim C6 witness: a live one-item collection reconciled with an empty
snapshot at time 2 signals archival once; the same empty snapshot at time 3
signals nothing and mutates nothing. -/
theorem reconcile_collection_completion_witness :
    (reconcile ⟨.active, [("A1", ⟨100, 2, .active, 0, none, [⟨100, 0⟩]⟩)]⟩
      [] 2).2 = true ∧
    (reconcile ⟨.active, [("A1", ⟨100, 2, .active, 0, none, [⟨100, 0⟩]⟩)]⟩
      [] 2).1.status = CollStatus.completed ∧
    reconcile
      (reconcile ⟨.active, [("A1", ⟨100, 2, .active, 0, none, [⟨100, 0⟩]⟩)]⟩
        [] 2).1 [] 3 =
    ((reconcile ⟨.active, [("A1", ⟨100, 2, .active, 0, none, [⟨100, 0⟩]⟩)]⟩
        [] 2).1, false) :=
  reconcile_collection_completion
    ⟨.active, [("A1", ⟨100, 2, .active, 0, none, [⟨100, 0⟩]⟩)]⟩ 2 3
    (by decide) rfl

/-- Modelled from the spec: the per-item history invariant (§3, §8) —
`price_history` is never empty, its timestamps are strictly increasing, and
`current_price` equals the price of the last `price_history` entry. -/
def ItemInv (it : Item) : Prop :=
  it.price_history ≠ [] ∧
  it.price_history.Chain' (fun a b => a.ts < b.ts) ∧
  (it.price_history.map PricePoint.price).getLast? = some it.current_price

/-- Claim C4: reconciliation preserves the history invariant — if every
item of the store satisfies it and the reconciliation clock `now` is beyond
every recorded timestamp, then after `reconcile(store, snapshot, now)`
every item's `price_history` is non-empty with strictly increasing
timestamps and `current_price` equal to the last entry's price. -/
theorem reconcile_preserves_history_invariant (store : Store)
    (snapshot : List SnapItem) (now : Nat)
    (hinv : ∀ p ∈ store.items, ItemInv p.2)
    (hbound : ∀ p ∈ store.items, ∀ e ∈ p.2.price_history, e.ts < now) :
    ∀ q ∈ (reconcile store snapshot now).1.items, ItemInv q.2 := by
  intro q hq
  rw [reconcile_items] at hq
  rcases List.mem_append.mp hq with hq | hq
  · obtain ⟨p, hp, rfl⟩ := List.mem_map.mp hq
    have hi := hinv p hp
    have hb := hbound p hp
    show ItemInv (stepItem snapshot now p.1 p.2)
    cases hst : p.2.status with
    | completed =>
      rw [stepItem_of_completed _ _ _ _ hst]
      exact hi
    | active =>
      cases hl : snapLookup snapshot p.1 with
      | none =>
        rw [stepItem_of_absent _ _ _ _ hst hl]
        exact hi
      | some s =>
        by_cases hps : s.price = p.2.current_price
        · have h1 : stepItem snapshot now p.1 p.2 =
              { p.2 with bid_count := s.bids } := by
            unfold stepItem
            rw [hst, hl]
            simp [hps, hst]
          rw [h1]
          exact hi
        · have h1 : stepItem snapshot now p.1 p.2 =
              { p.2 with current_price := s.price, bid_count := s.bids,
                         price_history := p.2.price_history ++ [⟨s.price, now⟩] } := by
            unfold stepItem
            rw [hst, hl]
            simp [hps, hst]
          rw [h1]
          obtain ⟨hne, hch, hlast⟩ := hi
          refine ⟨by simp, ?_, ?_⟩
          · show (p.2.price_history ++ [(⟨s.price, now⟩ : PricePoint)]).Chain'
              (fun a b => a.ts < b.ts)
            rw [List.chain'_append]
            refine ⟨hch, List.chain'_singleton _, ?_⟩
            intro x hx y hy
            have hxmem : x ∈ p.2.price_history := List.mem_of_mem_getLast? hx
            have hye : y = (⟨s.price, now⟩ : PricePoint) := by
              have := hy
              simp at this
              exact this.symm
            rw [hye]
            exact hb x hxmem
          · show ((p.2.price_history ++ [(⟨s.price, now⟩ : PricePoint)]).map
              PricePoint.price).getLast? = some s.price
            rw [List.map_append]
            exact List.getLast?_concat _
  · unfold freshItems at hq
    obtain ⟨s, _, rfl⟩ := List.mem_map.mp hq
    show ItemInv (newItem now s)
    exact ⟨by simp [newItem], List.chain'_singleton _, rfl⟩

/-- Claim C4 witness: a store holding one invariant-satisfying item, a
price-changing snapshot and a fresh key at a later clock keeps the
invariant of both resulting items. -/
theorem reconcile_preserves_history_invariant_witness :
    ItemInv ⟨150, 3, .active, 0, none, [⟨100, 0⟩, ⟨150, 1⟩]⟩ ∧
    ItemInv ⟨9000, 1, .active, 1, none, [⟨9000, 1⟩]⟩ := by
  have h := reconcile_preserves_history_invariant
    ⟨.active, [("A1", ⟨100, 2, .active, 0, none, [⟨100, 0⟩]⟩)]⟩
    [⟨"A1", 150, 3⟩, ⟨"B7", 9000, 1⟩] 1
    (by
      intro p hp
      simp only [List.mem_singleton] at hp
      subst hp
      exact ⟨by simp, List.chain'_singleton _, rfl⟩)
    (by
      intro p hp e he
      simp only [List.mem_singleton] at hp
      subst hp
      simp only [List.mem_singleton] at he
      subst he
      decide)
  exact ⟨h ("A1", ⟨150, 3, .active, 0, none, [⟨100, 0⟩, ⟨150, 1⟩]⟩) (by decide),
         h ("B7", ⟨9000, 1, .active, 1, none, [⟨9000, 1⟩]⟩) (by decide)⟩

/-- Modelled from the spec: the polling mode output of the ScheduleAdvisor,
`Normal | Rapid` (§4.3). -/
inductive Mode
  | normal
  | rapid
deriving DecidableEq

/-- Modelled from the spec: the rapid-mode threshold in minutes; the README
documents `FINAL_HOURS_THRESHOLD_MINUTES` with default 120. -/
def FINAL_HOURS_THRESHOLD_MINUTES : Nat := 120

/-- Modelled from the spec: the minimum remaining-time hint over the
currently active items, when there is at least one (§4.3). -/
def minRemaining (hints : List Nat) : Option Nat :=
  match hints with
  | [] => none
  | h :: t => some (t.foldl Nat.min h)

/-- Modelled from the spec: `advise(activeItems) -> {Normal, Rapid}` —
`Rapid` when the minimum remaining time over the active items is below the
threshold, `Normal` otherwise and with zero active items (§4.3). -/
def advise (threshold : Nat) (hints : List Nat) : Mode :=
  match minRemaining hints with
  | none => .normal
  | some m => if m < threshold then .rapid else .normal

/-- The folded minimum over a non-empty hint list is a lower bound of all
of its elements; stated on `foldl Nat.min`. -/
theorem foldl_min_le (t : List Nat) :
    ∀ (h : Nat), ∀ x ∈ h :: t, t.foldl Nat.min h ≤ x := by
  induction t with
  | nil =>
    intro h x hx
    simp only [List.mem_singleton] at hx
    simp [hx, List.foldl]
  | cons a t ih =>
    intro h x hx
    have step : (a :: t).foldl Nat.min h = t.foldl Nat.min (Nat.min h a) := rfl
    rcases List.mem_cons.mp hx with hx1 | hx2
    · rw [step, hx1]
      exact le_trans (ih (Nat.min h a) _ (List.mem_cons_self _ _))
        (Nat.min_le_left _ _)
    · rcases List.mem_cons.mp hx2 with hx21 | hx3
      · rw [step, hx21]
        exact le_trans (ih (Nat.min h a) _ (List.mem_cons_self _ _))
          (Nat.min_le_right _ _)
      · rw [step]
        exact ih (Nat.min h a) x (List.mem_cons_of_mem _ hx3)

/-- The folded minimum over a non-empty hint list is attained by one of its
elements. -/
theorem foldl_min_mem (t : List Nat) :
    ∀ (h : Nat), t.foldl Nat.min h ∈ h :: t := by
  induction t with
  | nil =>
    intro h
    simp [List.foldl]
  | cons a t ih =>
    intro h
    have step : (a :: t).foldl Nat.min h = t.foldl Nat.min (Nat.min h a) := rfl
    rw [step]
    rcases List.mem_cons.mp (ih (Nat.min h a)) with heq | hmem
    · rw [heq]
      rcases Nat.le_total h a with hle | hle
      · simp [Nat.min_eq_left hle]
      · simp [Nat.min_eq_right hle]
    · exact List.mem_cons_of_mem _ (List.mem_cons_of_mem _ hmem)

/-- Claim C7: the ScheduleAdvisor is the pure function `advise`; with zero
active items it returns `Normal`, and on a non-empty list of remaining-time
hints it returns `Rapid` exactly when the minimum hint is below the
threshold (equivalently, when some hint is below it); the configured
default threshold is 120 minutes, and the hints `[30, 180]` yield
`Rapid`. -/
theorem scheduleAdvisor_spec :
    FINAL_HOURS_THRESHOLD_MINUTES = 120 ∧
    (∀ threshold : Nat, advise threshold [] = Mode.normal) ∧
    (∀ (threshold : Nat) (hints : List Nat),
      advise threshold hints = Mode.rapid ↔
        ∃ m, minRemaining hints = some m ∧ m < threshold) ∧
    (∀ (threshold : Nat) (hints : List Nat),
      advise threshold hints = Mode.rapid ↔ ∃ x ∈ hints, x < threshold) ∧
    advise FINAL_HOURS_THRESHOLD_MINUTES [30, 180] = Mode.rapid := by
  refine ⟨rfl, fun _ => rfl, ?_, ?_, by decide⟩
  · intro threshold hints
    cases hints with
    | nil => simp [advise, minRemaining]
    | cons h t =>
      rw [show advise threshold (h :: t) =
        (if t.foldl Nat.min h < threshold then Mode.rapid else Mode.normal)
        from rfl]
      by_cases hm : t.foldl Nat.min h < threshold
      · rw [if_pos hm]
        exact iff_of_true rfl ⟨_, rfl, hm⟩
      · rw [if_neg hm]
        constructor
        · intro hcontra
          exact Mode.noConfusion hcontra
        · rintro ⟨m, hm2, hlt⟩
          have hme : m = t.foldl Nat.min h := by
            have := hm2
            unfold minRemaining at this
            simp at this
            exact this.symm
          exact absurd (hme ▸ hlt) hm
  · intro threshold hints
    cases hints with
    | nil => simp [advise, minRemaining]
    | cons h t =>
      rw [show advise threshold (h :: t) =
        (if t.foldl Nat.min h < threshold then Mode.rapid else Mode.normal)
        from rfl]
      by_cases hm : t.foldl Nat.min h < threshold
      · rw [if_pos hm]
        exact iff_of_true rfl ⟨t.foldl Nat.min h, foldl_min_mem t h, hm⟩
      · rw [if_neg hm]
        constructor
        · intro hcontra
          exact Mode.noConfusion hcontra
        · rintro ⟨x, hx, hlt⟩
          exact absurd (Nat.lt_of_le_of_lt (foldl_min_le t h x hx) hlt) hm

/-- Modelled from the spec: buy-now item status, `Available | Sold`
(§3, §4.2). -/
inductive BStatus
  | available
  | sold
deriving DecidableEq

/-- Modelled from the spec: one tracked buy-now plate (§3, §4.2). -/
structure BItem where
  key : String
  price : Nat
  status : BStatus
  sold_at : Option Nat
deriving DecidableEq

/-- Modelled from the spec: the fixed wall-clock archival interval for the
buy-now path, default every 4 days (§4.4). -/
def BUYNOW_ARCHIVE_INTERVAL_DAYS : Nat := 4

/-- Modelled from the spec: an immutable buy-now ArchiveEntry — a snapshot
of the available/sold partition at archival time, with counts (§3, §4.4). -/
structure BArchiveEntry where
  available : List BItem
  sold : List BItem
  count : Nat
  sold_count : Nat
  archived_at : Nat
deriving DecidableEq

/-- Modelled from the spec: the buy-now Archiver step (§4.4) — fires purely
on the wall-clock interval since the last archive, produces a snapshot
ArchiveEntry capturing the available/sold partition, and never clears or
modifies the live buy-now store. -/
def buynowArchiveStep (items : List BItem) (lastArchived now : Nat) :
    List BItem × Option BArchiveEntry :=
  if lastArchived + BUYNOW_ARCHIVE_INTERVAL_DAYS ≤ now then
    (items,
     some { available := items.filter (fun i => i.status == BStatus.available),
            sold := items.filter (fun i => i.status == BStatus.sold),
            count := items.length,
            sold_count := (items.filter (fun i => i.status == BStatus.sold)).length,
            archived_at := now })
  else (items, none)

/-- Claim C8: buy-now archival is a pure snapshot — the live store is
returned unchanged (no item removed or modified); the trigger fires exactly
when the configured wall-clock interval (default 4 days) has elapsed since
the last archive, independently of every item's status; and when it fires
the produced ArchiveEntry captures the available/sold partition at that
instant. -/
theorem buynowArchive_frame (items : List BItem) (lastArchived now : Nat) :
    (buynowArchiveStep items lastArchived now).1 = items ∧
    ((buynowArchiveStep items lastArchived now).2.isSome = true ↔
      lastArchived + BUYNOW_ARCHIVE_INTERVAL_DAYS ≤ now) ∧
    (∀ e, (buynowArchiveStep items lastArchived now).2 = some e →
      e.available = items.filter (fun i => i.status == BStatus.available) ∧
      e.sold = items.filter (fun i => i.status == BStatus.sold) ∧
      e.archived_at = now) := by
  unfold buynowArchiveStep
  by_cases h : lastArchived + BUYNOW_ARCHIVE_INTERVAL_DAYS ≤ now
  · rw [if_pos h]
    refine ⟨rfl, by simp [h], ?_⟩
    intro e he
    simp only [Option.some.injEq] at he
    rw [← he]
    exact ⟨rfl, rfl, rfl⟩
  · rw [if_neg h]
    refine ⟨rfl, by simp [h], ?_⟩
    intro e he
    simp at he

/-- Claim C8 witness: a store whose single plate is already sold is not
archived one day after the last archive, and is archived (with the store
untouched and the sold partition captured) four days after — the trigger
looked only at elapsed time. -/
theorem buynowArchive_frame_witness :
    (buynowArchiveStep [⟨"S1", 5000, .sold, some 1⟩] 0 1).2 = none ∧
    (buynowArchiveStep [⟨"S1", 5000, .sold, some 1⟩] 0 4).1 =
      [⟨"S1", 5000, .sold, some 1⟩] ∧
    (∀ e, (buynowArchiveStep [⟨"S1", 5000, .sold, some 1⟩] 0 4).2 = some e →
      e.sold = [⟨"S1", 5000, .sold, some 1⟩]) := by
  refine ⟨?_, (buynowArchive_frame [⟨"S1", 5000, .sold, some 1⟩] 0 4).1, ?_⟩
  · have h := (buynowArchive_frame [⟨"S1", 5000, .sold, some 1⟩] 0 1).2.1
    cases he : (buynowArchiveStep [⟨"S1", 5000, .sold, some 1⟩] 0 1).2 with
    | none => rfl
    | some e =>
      have : (0 + BUYNOW_ARCHIVE_INTERVAL_DAYS ≤ 1) := h.mp (by simp [he])
      exact absurd this (by decide)
  · intro e he
    have h := ((buynowArchive_frame [⟨"S1", 5000, .sold, some 1⟩] 0 4).2.2
      e he).2.1
    rw [h]
    rfl

/-- Modelled from the spec: one row of an auction archive file — number,
code, final price, bid count (§4.4, §6). -/
structure APlate where
  number : String
  code : String
  final_price : Nat
  bid_count : Nat
deriving DecidableEq

/-- Modelled from the spec: insert a plate into a list already sorted by
final price descending, after every strictly higher-priced plate and before
every plate of equal or lower price (so earlier-inserted equal prices stay
in front). -/
def insertByFinalPrice (p : APlate) : List APlate → List APlate
  | [] => [p]
  | q :: qs =>
    if p.final_price < q.final_price then q :: insertByFinalPrice p qs
    else p :: q :: qs

/-- Modelled from the spec: the Archiver's ordering of a finalized
collection — items sorted by final price descending, stable with respect to
insertion/first-seen order (§4.4, §6). -/
def sortByFinalPriceDesc (l : List APlate) : List APlate :=
  l.foldr insertByFinalPrice []

/-- Inserting emits a permutation of consing. -/
theorem insertByFinalPrice_perm (p : APlate) (l : List APlate) :
    List.Perm (insertByFinalPrice p l) (p :: l) := by
  induction l with
  | nil => exact List.Perm.refl _
  | cons q qs ih =>
    unfold insertByFinalPrice
    by_cases hlt : p.final_price < q.final_price
    · rw [if_pos hlt]
      exact ((ih.cons q).trans (List.Perm.swap p q qs))
    · rw [if_neg hlt]

/-- Membership in an inserted list comes from the new element or the old
list. -/
theorem mem_insertByFinalPrice (p x : APlate) (l : List APlate)
    (hx : x ∈ insertByFinalPrice p l) : x = p ∨ x ∈ l :=
  List.mem_cons.mp ((insertByFinalPrice_perm p l).mem_iff.mp hx)

/-- Inserting into a list sorted by final price descending keeps it
sorted. -/
theorem pairwise_insertByFinalPrice (p : APlate) (l : List APlate)
    (hl : l.Pairwise (fun a b => b.final_price ≤ a.final_price)) :
    (insertByFinalPrice p l).Pairwise
      (fun a b => b.final_price ≤ a.final_price) := by
  induction l with
  | nil => simp [insertByFinalPrice]
  | cons q qs ih =>
    rw [List.pairwise_cons] at hl
    unfold insertByFinalPrice
    by_cases hlt : p.final_price < q.final_price
    · rw [if_pos hlt]
      rw [List.pairwise_cons]
      refine ⟨?_, ih hl.2⟩
      intro x hx
      rcases mem_insertByFinalPrice p x qs hx with hxp | hxq
      · rw [hxp]
        exact Nat.le_of_lt hlt
      · exact hl.1 x hxq
    · rw [if_neg hlt]
      rw [List.pairwise_cons]
      refine ⟨?_, List.pairwise_cons.mpr hl⟩
      intro x hx
      rcases List.mem_cons.mp hx with hxq | hxqs
      · rw [hxq]
        exact Nat.le_of_not_lt hlt
      · exact le_trans (hl.1 x hxqs) (Nat.le_of_not_lt hlt)

/-- Filtering at a fixed final price commutes with insertion: an inserted
plate of that price lands at the front of the price class, all passed-over
plates having strictly higher prices. -/
theorem filter_insertByFinalPrice (p : APlate) (l : List APlate) (v : Nat) :
    (insertByFinalPrice p l).filter (fun q => q.final_price == v) =
      (if p.final_price == v then
        p :: l.filter (fun q => q.final_price == v)
       else l.filter (fun q => q.final_price == v)) := by
  induction l with
  | nil =>
    by_cases hv : p.final_price = v
    · simp [insertByFinalPrice, hv]
    · simp [insertByFinalPrice, hv]
  | cons q qs ih =>
    unfold insertByFinalPrice
    by_cases hlt : p.final_price < q.final_price
    · rw [if_pos hlt]
      by_cases hv : p.final_price = v
      · have hqv : ¬ (q.final_price = v) := by
          intro hq
          rw [hv] at hlt
          rw [hq] at hlt
          exact Nat.lt_irrefl v hlt
        simp only [List.filter_cons]
        rw [ih]
        simp [hv, hqv]
      · simp only [List.filter_cons]
        rw [ih]
        by_cases hqv : q.final_price = v
        · simp [hv, hqv]
        · simp [hv, hqv]
    · rw [if_neg hlt]
      by_cases hv : p.final_price = v
      · simp [List.filter_cons, hv]
      · simp [List.filter_cons, hv]

/-- Claim C9: the archived listing of a finalized collection is the same
multiset of plates, arranged in non-increasing order of final price, and
the sort is stable — for every price value, the plates carrying that final
price appear in exactly their original insertion/first-seen order. -/
theorem archive_sorted_stable (l : List APlate) :
    List.Perm (sortByFinalPriceDesc l) l ∧
    (sortByFinalPriceDesc l).Pairwise
      (fun a b => b.final_price ≤ a.final_price) ∧
    (∀ v : Nat, (sortByFinalPriceDesc l).filter (fun q => q.final_price == v)
      = l.filter (fun q => q.final_price == v)) := by
  induction l with
  | nil => exact ⟨List.Perm.refl _, List.Pairwise.nil, fun _ => rfl⟩
  | cons p ps ih =>
    have hstep : sortByFinalPriceDesc (p :: ps) =
        insertByFinalPrice p (sortByFinalPriceDesc ps) := rfl
    refine ⟨?_, ?_, ?_⟩
    · rw [hstep]
      exact (insertByFinalPrice_perm p _).trans (ih.1.cons p)
    · rw [hstep]
      exact pairwise_insertByFinalPrice p _ ih.2.1
    · intro v
      rw [hstep, filter_insertByFinalPrice, List.filter_cons]
      by_cases hv : p.final_price = v
      · simp [hv, ih.2.2 v]
      · simp [hv, ih.2.2 v]

/-- The dashboard's Plate record as read from the generated data
(dashboard/src/app/page.tsx): `final_price` and `bid_count` are optional,
`price` is always present. -/
structure DPlate where
  plate_number : String
  plate_code : String
  price : Nat
  final_price : Option Nat
  bid_count : Option Nat
deriving DecidableEq

/-- The JavaScript expression `final_price || price` over the dashboard's
numeric fields: an absent (`undefined`) or zero `final_price` is falsy, so
the expression falls back to `price`; any other value is taken as is. -/
def jsOrPrice (fp : Option Nat) (price : Nat) : Nat :=
  match fp with
  | some v => if v = 0 then price else v
  | none => price

/-- The price shown by the dashboard's PlateDetailModal
(`plate.final_price || plate.price`, dashboard/src/app/page.tsx line
101). -/
def displayedPrice (p : DPlate) : Nat :=
  jsOrPrice p.final_price p.price

/-- The key compared by the dashboard's `sortPlates` in its price modes
(`(b.final_price || b.price) - (a.final_price || a.price)`,
src/unnamed/part_003 lines 882 and 884). -/
def priceSortKey (p : DPlate) : Nat :=
  jsOrPrice p.final_price p.price

/-- Claim C10: at the presentation interface the price sort key equals the
displayed price, and both equal `final_price` exactly when it is defined
and non-zero, falling back to `price` when `final_price` is absent or 0 —
so a plate with `final_price = 0` is sorted and shown by its `price`, not
by 0. -/
theorem dashboard_price_fallback (p : DPlate) :
    priceSortKey p = displayedPrice p ∧
    (∀ fp, p.final_price = some fp → fp ≠ 0 → displayedPrice p = fp) ∧
    (p.final_price = some 0 → displayedPrice p = p.price) ∧
    (p.final_price = none → displayedPrice p = p.price) := by
  refine ⟨rfl, ?_, ?_, ?_⟩
  · intro fp hfp hne
    unfold displayedPrice jsOrPrice
    rw [hfp]
    simp [hne]
  · intro hfp
    unfold displayedPrice jsOrPrice
    rw [hfp]
    simp
  · intro hfp
    unfold displayedPrice jsOrPrice
    rw [hfp]

/-- Claim C10 witness: a plate with `final_price = 0` and `price = 777` is
displayed (and keyed) at 777. -/
theorem dashboard_price_fallback_witness :
    displayedPrice ⟨"5", "W", 777, some 0, none⟩ = 777 :=
  (dashboard_price_fallback ⟨"5", "W", 777, some 0, none⟩).2.2.1 rfl

/-- Modelled from the spec: a tracked buy-now plate in the live buy-now
TrackingStore — `price`, `status` (`Available | Sold`), `first_seen`,
`sold_at`, `price_history` (§3, §4.2; the buy-now reconciler source is not
in the checked-in tree). -/
structure BuyNowItem where
  price : Nat
  status : BStatus
  first_seen : Nat
  sold_at : Option Nat
  price_history : List PricePoint
deriving DecidableEq

/-- Modelled from the spec: whether the buy-now store's item list already
holds the given key. -/
def hasBuyKeyIn (items : List (String × BuyNowItem)) (k : String) : Bool :=
  match items with
  | [] => false
  | p :: rest => p.1 == k || hasBuyKeyIn rest k

/-- Modelled from the spec: the per-item transition of the BuyNowReconciler
(§4.2) — same shape as the auction one with the `Available`/`Sold` terminal
rule: absence from the snapshot moves an `Available` item to `Sold` with
`sold_at = now`, price retained at the last seen value; a changed price of
a present item is appended to its history; a `Sold` item is never touched
again (the terminal status is assigned exactly once and never reverted). -/
def stepBuyNowItem (snapshot : List SnapItem) (now : Nat) (k : String)
    (it : BuyNowItem) : BuyNowItem :=
  match it.status with
  | .sold => it
  | .available =>
    match snapLookup snapshot k with
    | some s =>
      if s.price = it.price then it
      else { it with price := s.price,
                     price_history := it.price_history ++ [⟨s.price, now⟩] }
    | none => { it with status := .sold, sold_at := some now }

/-- Modelled from the spec: a snapshot item with a new key is inserted into
the buy-now store as `Available` (§4.2). -/
def newBuyNowItem (now : Nat) (s : SnapItem) : BuyNowItem :=
  { price := s.price, status := .available, first_seen := now,
    sold_at := none, price_history := [⟨s.price, now⟩] }

/-- Modelled from the spec: the BuyNowReconciler's diff of a snapshot
against the live buy-now store (§4.2) — every stored item takes its
per-item transition and snapshot items with unseen keys are inserted as
`Available`, in snapshot order; there is no collection-level completion. -/
def buynowReconcile (items : List (String × BuyNowItem))
    (snapshot : List SnapItem) (now : Nat) : List (String × BuyNowItem) :=
  items.map (fun p => (p.1, stepBuyNowItem snapshot now p.1 p.2))
    ++ (snapshot.filter (fun s => !(hasBuyKeyIn items s.key))).map
        (fun s => (s.key, newBuyNowItem now s))

/-- A `Sold` item passes through the buy-now per-item transition
unchanged. -/
theorem stepBuyNowItem_of_sold (snapshot : List SnapItem) (now : Nat)
    (k : String) (it : BuyNowItem) (h : it.status = .sold) :
    stepBuyNowItem snapshot now k it = it := by
  unfold stepBuyNowItem
  rw [h]

/-- Claim C3: no resurrection for either terminal status — a `Completed`
auction item and a `Sold` buy-now item are each left wholly unchanged by
every subsequent run of their reconciler, with any snapshot, including one
in which the same key reappears; in particular the terminal status is never
reverted to `Active`/`Available`. -/
theorem reconcile_no_resurrection :
    (∀ (store : Store) (snapshot : List SnapItem) (now : Nat) (k : String)
      (it : Item), (k, it) ∈ store.items → it.status = .completed →
      (k, it) ∈ (reconcile store snapshot now).1.items) ∧
    (∀ (items : List (String × BuyNowItem)) (snapshot : List SnapItem)
      (now : Nat) (k : String) (it : BuyNowItem), (k, it) ∈ items →
      it.status = .sold → (k, it) ∈ buynowReconcile items snapshot now) := by
  constructor
  · intro store snapshot now k it hmem hterm
    unfold reconcile
    simp only [List.mem_append]
    left
    refine List.mem_map.mpr ⟨(k, it), hmem, ?_⟩
    simp [stepItem_of_completed snapshot now k it hterm]
  · intro items snapshot now k it hmem hterm
    unfold buynowReconcile
    simp only [List.mem_append]
    left
    refine List.mem_map.mpr ⟨(k, it), hmem, ?_⟩
    simp [stepBuyNowItem_of_sold snapshot now k it hterm]

/-- Claim C3 witness: a `Completed` auction item and a `Sold` buy-now item
whose keys reappear in later snapshots both stay terminal and unchanged. -/
theorem reconcile_no_resurrection_witness :
    ("1907", ({ current_price := 1000000, bid_count := 8,
                status := .completed, first_seen := 1,
                completed_at := some 2,
                price_history := [⟨1000000, 1⟩] } : Item)) ∈
      (reconcile
        ⟨.completed,
         [("1907", { current_price := 1000000, bid_count := 8,
                     status := .completed, first_seen := 1,
                     completed_at := some 2,
                     price_history := [⟨1000000, 1⟩] })]⟩
        [⟨"1907", 999, 1⟩] 3).1.items ∧
    ("P5", ({ price := 5000, status := .sold, first_seen := 1,
              sold_at := some 2,
              price_history := [⟨5000, 1⟩] } : BuyNowItem)) ∈
      buynowReconcile
        [("P5", { price := 5000, status := .sold, first_seen := 1,
                  sold_at := some 2, price_history := [⟨5000, 1⟩] })]
        [⟨"P5", 4000, 0⟩] 3 := by
  constructor
  · exact reconcile_no_resurrection.1 _ [⟨"1907", 999, 1⟩] 3 "1907" _
      (by decide) (by decide)
  · exact reconcile_no_resurrection.2 _ [⟨"P5", 4000, 0⟩] 3 "P5" _
      (by decide) (by decide)

end EmiratesAuction
